import Mathlib

/-!
Verification of the mixcoin accountable mixing service (pool/state-machine
layer, fee decision, delay scheduling) against its design specification.

The embedding follows `src/mixcoin/server.go` and `src/mixcoin/mix.go`.
Components of the repository whose source files are not available
(the `PoolManager` pool operations, the `randInt` helper, the RPC client)
are modelled from the specification's description of their contracts; each
such definition carries a doc comment starting with `Modelled from the spec:`.
The Go `math/rand` generator (an external library) is abstracted as a
deterministic function from seeds to rationals in [0,1), matching its
documented contract.
-/

namespace Mixcoin

/-- A chunk request message (`ChunkMessage`): nonce, fee rate in basis
points, sendBy/returnBy height deadlines, declared output address, and the
assigned escrow (mix) address. -/
structure ChunkMessage where
  nonce    : Int
  fee      : Int
  sendBy   : Int
  returnBy : Int
  outAddr  : String
  mixAddr  : String
  deriving DecidableEq, Repr

/-- A confirmed unspent output at an escrow address (`Utxo` in server.go):
address, amount (in satoshis, after the `btcutil.NewAmount` conversion from
the BTC float), transaction id and output index. -/
structure Utxo where
  addr   : String
  amount : Int
  txId   : String
  index  : Nat
  deriving DecidableEq, Repr

/-- The pool state partitioned by label, as used by server.go: `Receivable`
holds pending chunk messages, `Mixing` and `Reserve` hold harvested utxos
(`pool.Put(Reserve, utxo)` / `pool.Put(Mixing, utxo)`). -/
structure PoolState where
  receivable : List ChunkMessage
  mixing     : List Utxo
  reserve    : List Utxo
  deriving DecidableEq, Repr

/-- Modelled from the spec: `PoolManager.Filter(predicate)` "removes items
for which predicate is false" (the pool manager's source is not available).
The predicate supplied by `prune` type-asserts items to `*ChunkMessage`, so
it acts on the Receivable pool, which is where chunk messages live. -/
def poolFilter (pred : ChunkMessage → Bool) (p : PoolState) : PoolState :=
  { p with receivable := p.receivable.filter pred }

/-- Modelled from the spec: `ReceivingKeys()` is a "snapshot of all escrow
addresses currently awaiting deposit". -/
def receivingKeys (p : PoolState) : List String :=
  p.receivable.map (fun c => c.mixAddr)

/-- Modelled from the spec: `Scan(addresses)` "atomically removes and
returns matching items from Receivable; unmatched addresses are skipped
silently". Returns the harvested chunk messages and the updated pool. -/
def poolScan (addrs : List String) (p : PoolState) :
    List ChunkMessage × PoolState :=
  (p.receivable.filter (fun c => addrs.contains c.mixAddr),
   { p with receivable :=
       p.receivable.filter (fun c => !(addrs.contains c.mixAddr)) })

/-- Modelled from the spec: `Put(Receivable, item)` inserts under the
item's derived key (its escrow address). -/
def putReceivable (c : ChunkMessage) (p : PoolState) : PoolState :=
  { p with receivable := c :: p.receivable }

/-- Modelled from the spec: `Put(Reserve, utxo)`. -/
def putReserve (u : Utxo) (p : PoolState) : PoolState :=
  { p with reserve := u :: p.reserve }

/-- Modelled from the spec: `Put(Mixing, utxo)`. -/
def putMixing (u : Utxo) (p : PoolState) : PoolState :=
  { p with mixing := u :: p.mixing }

/-- Embeds `prune` (server.go lines 117-122): it calls
`pool.Filter(func(item) bool { return msg.SendBy <= blockchainHeight })`,
where `blockchainHeight` is the process-wide height set by the
block-connected handler. -/
def prune (blockchainHeight : Int) (p : PoolState) : PoolState :=
  poolFilter (fun msg => msg.sendBy ≤ blockchainHeight) p

/-! ### The fee decision (`isFee`, server.go lines 192-203) -/

/-- Reduction of an integer to its unsigned 64-bit representative, as Go
does when reinterpreting an `int64` bit pattern. -/
def toUInt64Nat (a : Int) : Nat := (a % (2 : Int) ^ 64).toNat

/-- Two's-complement reading of the low 64 bits of a natural number, as
Go's `big.Int.Int64` produces for a non-negative big integer. -/
def toInt64 (n : Nat) : Int :=
  if n % 2 ^ 64 < 2 ^ 63 then ((n % 2 ^ 64 : Nat) : Int)
  else ((n % 2 ^ 64 : Nat) : Int) - 2 ^ 64

/-- Big-endian value of a byte string, as `big.Int.SetBytes` interprets
the block hash's bytes. -/
def bytesBE (bs : List Nat) : Nat :=
  bs.foldl (fun acc b => acc * 256 + b % 256) 0

/-- The `int64` the fee decision derives from the confirming block's hash:
`bigIntHash.SetBytes(hash.Bytes()); bigIntHash.Int64()` — the low 64 bits
of the big-endian hash value, read as a signed 64-bit integer. -/
def hashToInt64 (bytes : List Nat) : Int := toInt64 (bytesBE bytes)

/-- Bitwise OR of two Go `int64` values (`nonce | hashInt`), computed on
the two's-complement bit patterns. -/
def or64 (a b : Int) : Int :=
  toInt64 (Nat.lor (toUInt64Nat a) (toUInt64Nat b))

/-- Modelled from the Go `math/rand` contract used by `isFee`: a generator
seeded with `gen` and asked for one `Float64()` yields a deterministic
value in [0,1) depending only on the seed. A draw function satisfies this
contract when every output lies in [0,1). -/
def DrawOk (draw : Int → ℚ) : Prop := ∀ s : Int, 0 ≤ draw s ∧ draw s < 1

/-- Embeds `isFee` (server.go lines 192-203): derive `hashInt` from the
block hash bytes, seed `gen := nonce | hashInt`, set
`fee := float64(feeBips) * 1.0e-4`, draw one value from the generator
seeded with `gen`, and retain iff the value is `<= fee`. The draw is the
abstracted `math/rand` generator; the float arithmetic is modelled over ℚ
(exact at the endpoints feeBips = 0 and feeBips = 10000, where the float
products are exactly 0.0 and 1.0). -/
def isFee (draw : Int → ℚ) (nonce : Int) (hashBytes : List Nat)
    (feeBips : Int) : Bool :=
  let hashInt := hashToInt64 hashBytes
  let gen := or64 nonce hashInt
  let fee : ℚ := (feeBips : ℚ) * (1 / 10000)
  decide (draw gen ≤ fee)

/-- A concrete admissible draw function that returns 0 — the uniform [0,1)
contract includes 0 among the possible outputs. -/
def drawZero : Int → ℚ := fun _ => 0

/-- A concrete admissible draw function returning 1/2, used to instantiate
parametric theorems. -/
def drawHalf : Int → ℚ := fun _ => 1 / 2

theorem drawZero_ok : DrawOk drawZero := by
  intro s; constructor <;> norm_num [drawZero]

theorem drawHalf_ok : DrawOk drawHalf := by
  intro s; constructor <;> norm_num [drawHalf]

/-! ### The per-block pass (`findTransactions`, server.go lines 124-190) -/

/-- The constant `MAX_CONF = 9999` (server.go line 18), passed as the
upper confirmation bound to `ListUnspentMinMaxAddresses`. -/
def MAX_CONF : Int := 9999

/-- A row of the `listunspent` RPC response (`btcjson.ListUnspentResult`):
address, amount (in satoshis after the `btcutil.NewAmount` conversion),
transaction id, output index and confirmation count. -/
structure ListUnspentResult where
  address       : String
  amount        : Int
  txId          : String
  vout          : Nat
  confirmations : Int
  deriving DecidableEq, Repr

/-- Embeds `isValidReceivedResult` (server.go lines 205-218): a listed
result is valid when `result.Confirmations >= cfg.MinConfirmations` and
the received amount is at least `cfg.ChunkSize`. -/
def isValidReceivedResult (minConf chunkSize : Int)
    (r : ListUnspentResult) : Bool :=
  (minConf ≤ r.confirmations) && (chunkSize ≤ r.amount)

/-- Modelled from the spec: the blockchain RPC collaborator
`listUnspent(minConf, maxConf, addresses)` returns the confirmed unspent
outputs at the given addresses whose confirmation counts lie within
[minConf, maxConf]. `chain` is the node's full view of unspent outputs. -/
def listUnspentMinMaxAddresses (minConf maxConf : Int)
    (addrs : List String) (chain : List ListUnspentResult) :
    List ListUnspentResult :=
  chain.filter (fun r =>
    (minConf ≤ r.confirmations) && (r.confirmations ≤ maxConf) &&
      addrs.contains r.address)

/-- The `Utxo` built from a listed result (server.go lines 159-164). -/
def utxoOfResult (r : ListUnspentResult) : Utxo :=
  { addr := r.address, amount := r.amount, txId := r.txId, index := r.vout }

/-- The observable outcome of one `findTransactions` pass: the resulting
pool, the chunk messages harvested by `Scan` (each of which receives a fee
decision and is routed), and the messages handed to `mix.Put`. -/
structure PassOutput where
  pool     : PoolState
  scanned  : List ChunkMessage
  mixQueue : List ChunkMessage
  deriving DecidableEq, Repr

/-- Routing of one harvested chunk message (server.go lines 177-188): look
up its utxo in the `received` map (in Go, the map is built by the loop so
the last valid result for an address wins) and either
`pool.Put(Reserve, utxo)` when `isFee` retains it, or
`pool.Put(Mixing, utxo)` followed by `mix.Put(msg)`. -/
def routeChunk (draw : Int → ℚ) (hashBytes : List Nat)
    (valid : List ListUnspentResult)
    (st : PoolState × List ChunkMessage) (msg : ChunkMessage) :
    PoolState × List ChunkMessage :=
  let utxo := match valid.reverse.find? (fun r => r.address == msg.mixAddr) with
    | some r => utxoOfResult r
    | none   => { addr := msg.mixAddr, amount := 0, txId := "", index := 0 }
  if isFee draw msg.nonce hashBytes msg.fee then
    (putReserve utxo st.1, st.2)
  else
    (putMixing utxo st.1, msg :: st.2)

/-- The listed results that survive the `isValidReceivedResult` check
(server.go lines 141-165): query the RPC for unspent outputs at the
receiving addresses with confirmations in [minConf, MAX_CONF], then keep
only valid results. These populate the `received` map. -/
def validResults (minConf chunkSize : Int)
    (chain : List ListUnspentResult) (p1 : PoolState) :
    List ListUnspentResult :=
  (listUnspentMinMaxAddresses minConf MAX_CONF (receivingKeys p1) chain).filter
    (isValidReceivedResult minConf chunkSize)

/-- The addresses of the `received` map (server.go lines 167-170), i.e.
the addresses of the valid listed results. -/
def receivedAddresses (minConf chunkSize : Int)
    (chain : List ListUnspentResult) (p1 : PoolState) : List String :=
  (validResults minConf chunkSize chain p1).map (fun r => r.address)

/-- The harvest-and-route portion of `findTransactions` (server.go lines
127-189), acting on the already-pruned pool: list unspent outputs at the
receiving addresses, keep the valid results, `Scan` the matching chunk
messages out of Receivable, and route each through the fee decision. -/
def harvestBlock (minConf chunkSize : Int) (draw : Int → ℚ)
    (hashBytes : List Nat) (chain : List ListUnspentResult)
    (p1 : PoolState) : PassOutput :=
  let receivedAddrs := receivedAddresses minConf chunkSize chain p1
  let scanned := (poolScan receivedAddrs p1).1
  let p2 := (poolScan receivedAddrs p1).2
  let routed := scanned.foldl
    (routeChunk draw hashBytes (validResults minConf chunkSize chain p1))
    (p2, [])
  { pool := routed.1, scanned := scanned, mixQueue := routed.2 }

/-- Embeds `findTransactions` (server.go lines 124-190): `prune()` runs
first on the pool (with the process height set to this block's height by
`onBlockConnected`), then the confirmed-utxo query, scan and routing of
the same pass. -/
def findTransactions (minConf chunkSize : Int) (draw : Int → ℚ)
    (hashBytes : List Nat) (height : Int)
    (chain : List ListUnspentResult) (p : PoolState) : PassOutput :=
  harvestBlock minConf chunkSize draw hashBytes chain (prune height p)

/-- Outcome of running `findTransactions` when the `ListUnspent` RPC call
itself may fail: `log.Panicf` (server.go line 143) raises a panic, which —
with no `recover` anywhere in the program — terminates the process. The
pool recorded in the `panicked` outcome is the state already reached
(pruning precedes the RPC call). -/
inductive PassResult where
  | panicked (poolAtPanic : PoolState)
  | done (out : PassOutput)
  deriving DecidableEq, Repr

/-- Embeds `findTransactions` including the error path of the
`rpc.ListUnspentMinMaxAddresses` call (server.go lines 141-144): on an RPC
error the function calls `log.Panicf`, i.e. panics. -/
def findTransactionsRun (minConf chunkSize : Int) (draw : Int → ℚ)
    (hashBytes : List Nat) (height : Int)
    (rpcResult : Except Unit (List ListUnspentResult)) (p : PoolState) :
    PassResult :=
  let p1 := prune height p
  match rpcResult with
  | .error _ => .panicked p1
  | .ok chain => .done (harvestBlock minConf chunkSize draw hashBytes chain p1)

/-! ### The request handler (`handleChunkRequest`, server.go lines 74-100) -/

/-- The synchronous result of `handleChunkRequest`: refusal while
shutting down, a validation error returned to the caller, a panic
(`log.Panicf` on address-generation failure, terminating the process if
unrecovered), or success with the generated escrow address. -/
inductive ReqResult where
  | refusedShutdown
  | validationError (e : String)
  | panicked
  | ok (escrowAddr : String)
  deriving DecidableEq, Repr

/-- Everything observable about one `handleChunkRequest` invocation: its
synchronous result, the pool afterwards, whether `getNewAddress` was
reached, and whether `signChunkMessage` was reached. -/
structure ReqOutcome where
  result           : ReqResult
  pool             : PoolState
  addrGenAttempted : Bool
  signed           : Bool
  deriving DecidableEq, Repr

/-- Embeds `handleChunkRequest` (server.go lines 74-100): refuse when
stopping; return the validation error of `validateChunkMsg` (whose source
is not available, so it is an abstract parameter returning an optional
error) before any address generation or signing; on `getNewAddress`
failure call `log.Panicf` (a panic); otherwise assign the escrow address,
sign, and `pool.Put(Receivable, msg)` via `registerNewChunk`. -/
def handleChunkRequest (stopping : Bool)
    (validate : ChunkMessage → Option String)
    (getNewAddress : Except Unit String)
    (p : PoolState) (msg : ChunkMessage) : ReqOutcome :=
  if stopping then
    { result := .refusedShutdown, pool := p,
      addrGenAttempted := false, signed := false }
  else
    match validate msg with
    | some e =>
        { result := .validationError e, pool := p,
          addrGenAttempted := false, signed := false }
    | none =>
        match getNewAddress with
        | .error _ =>
            { result := .panicked, pool := p,
              addrGenAttempted := true, signed := false }
        | .ok addr =>
            { result := .ok addr,
              pool := putReceivable { msg with mixAddr := addr } p,
              addrGenAttempted := true, signed := true }

/-! ### The delay scheduler (`generateDelay`, mix.go lines 25-34) -/

/-- Modelled from the spec: the helper `randInt` (its source file is not
available) draws "uniformly from [0, n]" height-units; it is modelled by
its support: any deterministic draw with `0 ≤ randInt n ≤ n` whenever
`0 ≤ n`. -/
def RandIntOk (randInt : Int → Int) : Prop :=
  ∀ n : Int, 0 ≤ n → 0 ≤ randInt n ∧ randInt n ≤ n

/-- Embeds `generateDelay` (mix.go lines 25-34): query the current
blockchain height and return `randInt(returnBy - 1 - currHeight)`. -/
def generateDelay (randInt : Int → Int) (currHeight returnBy : Int) : Int :=
  randInt (returnBy - 1 - currHeight)

/-! ### Concrete example data for witnesses and counterexamples -/

/-- A chunk whose sendBy deadline (height 5) has passed at height 10. -/
def exChunkExpired : ChunkMessage :=
  { nonce := 0, fee := 0, sendBy := 5, returnBy := 0,
    outAddr := "out", mixAddr := "E" }

/-- A chunk whose sendBy deadline (height 20) has not passed at height 10. -/
def exChunkFresh : ChunkMessage :=
  { nonce := 0, fee := 0, sendBy := 20, returnBy := 0,
    outAddr := "out", mixAddr := "F" }

/-- A pool holding the two example chunks in Receivable. -/
def examplePool : PoolState :=
  { receivable := [exChunkExpired, exChunkFresh], mixing := [], reserve := [] }

/-- A listed unspent output at address "E" with 6 confirmations and an
amount of 100 satoshis. -/
def exResult : ListUnspentResult :=
  { address := "E", amount := 100, txId := "tx", vout := 0, confirmations := 6 }

/-- A listed unspent output at address "E" whose amount (40 satoshis) is
below a chunk size of 100. -/
def exResultSmall : ListUnspentResult :=
  { address := "E", amount := 40, txId := "tx", vout := 0, confirmations := 6 }

/-- A validator that rejects every request with the error "invalid". -/
def exValidateFail : ChunkMessage → Option String := fun _ => some "invalid"

/-- A deterministic draw for the delay helper that always returns 0,
inside the spec's range [0, n]. -/
def exRandInt : Int → Int := fun _ => 0

/-! ### Basic lemmas about the pass -/

/-- Routing a chunk touches only the Reserve and Mixing pools: the
Receivable pool of the state is unchanged. -/
theorem routeChunk_fst_receivable (draw : Int → ℚ) (hashBytes : List Nat)
    (valid : List ListUnspentResult) (st : PoolState × List ChunkMessage)
    (msg : ChunkMessage) :
    (routeChunk draw hashBytes valid st msg).1.receivable =
      st.1.receivable := by
  unfold routeChunk
  by_cases hf : isFee draw msg.nonce hashBytes msg.fee <;>
    simp [hf, putReserve, putMixing]

/-- Folding the router over any list of chunk messages leaves the
Receivable pool unchanged. -/
theorem routeChunk_foldl_receivable (draw : Int → ℚ) (hashBytes : List Nat)
    (valid : List ListUnspentResult) (msgs : List ChunkMessage)
    (st : PoolState × List ChunkMessage) :
    ((msgs.foldl (routeChunk draw hashBytes valid) st).1).receivable =
      st.1.receivable := by
  induction msgs generalizing st with
  | nil => rfl
  | cons m ms ih =>
      rw [List.foldl_cons, ih, routeChunk_fst_receivable]

/-- The chunks a harvest pass scans out of Receivable are exactly those
whose escrow address is among the received addresses. -/
theorem harvestBlock_scanned (minConf chunkSize : Int) (draw : Int → ℚ)
    (hashBytes : List Nat) (chain : List ListUnspentResult)
    (p1 : PoolState) :
    (harvestBlock minConf chunkSize draw hashBytes chain p1).scanned =
      p1.receivable.filter (fun c =>
        (receivedAddresses minConf chunkSize chain p1).contains c.mixAddr) :=
  rfl

/-- After a harvest pass, the Receivable pool holds exactly the chunks
whose escrow address is not among the received addresses. -/
theorem harvestBlock_receivable (minConf chunkSize : Int) (draw : Int → ℚ)
    (hashBytes : List Nat) (chain : List ListUnspentResult)
    (p1 : PoolState) :
    (harvestBlock minConf chunkSize draw hashBytes chain p1).pool.receivable =
      p1.receivable.filter (fun c =>
        !((receivedAddresses minConf chunkSize chain p1).contains c.mixAddr)) := by
  unfold harvestBlock
  rw [routeChunk_foldl_receivable]
  rfl

/-- An address in the received set comes from a chain result at that
address with confirmations in [minConf, MAX_CONF] and an amount of at
least chunkSize. -/
theorem mem_receivedAddresses (minConf chunkSize : Int)
    (chain : List ListUnspentResult) (p1 : PoolState) (a : String)
    (h : a ∈ receivedAddresses minConf chunkSize chain p1) :
    ∃ r ∈ chain, r.address = a ∧ minConf ≤ r.confirmations ∧
      r.confirmations ≤ MAX_CONF ∧ chunkSize ≤ r.amount := by
  rw [receivedAddresses, List.mem_map] at h
  obtain ⟨r, hr, ha⟩ := h
  rw [validResults, List.mem_filter] at hr
  obtain ⟨hl, hv⟩ := hr
  rw [listUnspentMinMaxAddresses, List.mem_filter] at hl
  obtain ⟨hchain, hb⟩ := hl
  simp only [isValidReceivedResult, Bool.and_eq_true, decide_eq_true_eq]
    at hv hb
  exact ⟨r, hchain, ha, hb.1.1, hb.1.2, hv.2⟩

/-! ### Claims -/

/-- C1: the claim fails on the code. With `Filter` as the spec defines it
(remove the items for which the predicate is false) and `prune`'s actual
predicate `SendBy <= blockchainHeight`, a chunk whose sendBy deadline has
passed (sendBy = 5 at height 10) satisfies the predicate, so `prune`
keeps it: it is still in the pool and still listed by `ReceivingKeys()`.
The not-yet-expired chunk (sendBy = 20) is the one removed. -/
theorem c1_prune_keeps_expired_chunk :
    (prune 10 examplePool).receivable = [exChunkExpired] ∧
    receivingKeys (prune 10 examplePool) = ["E"] := by
  exact ⟨rfl, rfl⟩

/-- C2 counterexample: the claim "feeRate = 0 never retains" is not
guaranteed by the code. The generator contract only promises a value in
[0,1), and the comparison is `value <= fee` with fee = 0.0, so a draw of
exactly 0 retains the chunk: the admissible draw function `drawZero`
makes `isFee` return true at feeRate 0. -/
theorem c2_feeRate_zero_can_retain :
    ¬ (∀ draw : Int → ℚ, DrawOk draw →
        ∀ (nonce : Int) (hashBytes : List Nat),
          isFee draw nonce hashBytes 0 = false) := by
  intro h
  have h0 := h drawZero drawZero_ok 0 []
  simp [isFee, drawZero] at h0

/-- C2 (amended): for every draw function satisfying the generator's
[0,1) contract, feeRate = 10000 always retains the chunk, and feeRate = 0
retains it exactly when the drawn value is 0 (so it never retains unless
the generator outputs exactly 0). -/
theorem c2_fee_endpoints (draw : Int → ℚ) (h : DrawOk draw)
    (nonce : Int) (hashBytes : List Nat) :
    isFee draw nonce hashBytes 10000 = true ∧
    (isFee draw nonce hashBytes 0 = true ↔
      draw (or64 nonce (hashToInt64 hashBytes)) = 0) := by
  obtain ⟨hlo, hhi⟩ := h (or64 nonce (hashToInt64 hashBytes))
  constructor
  · simp only [isFee, decide_eq_true_eq]
    norm_num
    linarith
  · simp only [isFee, decide_eq_true_eq]
    norm_num
    constructor
    · intro hle; linarith
    · intro heq; linarith

/-- Witness for C2: evaluating the endpoints at the concrete draw
function `drawHalf`, nonce 0 and an empty hash byte string. -/
theorem c2_fee_endpoints_witness :
    isFee drawHalf 0 [] 10000 = true ∧ isFee drawHalf 0 [] 0 = false := by
  have h := c2_fee_endpoints drawHalf drawHalf_ok 0 []
  refine ⟨h.1, ?_⟩
  by_contra hne
  have : isFee drawHalf 0 [] 0 = true := by
    cases he : isFee drawHalf 0 [] 0
    · exact absurd he hne
    · rfl
  have := h.2.mp this
  norm_num [drawHalf] at this

/-- C3: the fee decision retains a chunk exactly when the value drawn
from the generator seeded with the bitwise OR of the nonce and the
block-hash-derived 64-bit integer is at most feeRate·1e-4 (feeRate in
basis points). -/
theorem c3_isFee_algorithm (draw : Int → ℚ) (nonce : Int)
    (hashBytes : List Nat) (feeBips : Int) :
    isFee draw nonce hashBytes feeBips = true ↔
      draw (or64 nonce (hashToInt64 hashBytes)) ≤ (feeBips : ℚ) / 10000 := by
  simp only [isFee, decide_eq_true_eq, mul_one_div]

/-- C4: the fee decision is a pure function of its three arguments: two
invocations with identical nonce, block hash and feeRate yield identical
retain/mix outcomes. -/
theorem c4_isFee_pure (draw : Int → ℚ) (n₁ n₂ : Int)
    (h₁ h₂ : List Nat) (f₁ f₂ : Int)
    (hn : n₁ = n₂) (hh : h₁ = h₂) (hf : f₁ = f₂) :
    isFee draw n₁ h₁ f₁ = isFee draw n₂ h₂ f₂ := by
  subst hn; subst hh; subst hf; rfl

/-- Witness for C4: two textually separate invocations at nonce 7,
hash bytes [1, 2] and feeRate 500 agree. -/
theorem c4_isFee_pure_witness :
    isFee drawHalf 7 [1, 2] 500 = isFee drawHalf 7 [1, 2] 500 :=
  c4_isFee_pure drawHalf 7 7 [1, 2] [1, 2] 500 500 rfl rfl rfl

/-- C5: a chunk is scanned out of Receivable (and hence routed to Reserve
or Mixing) in a pass only when the chain holds a deposit at its escrow
address whose confirmation count is at least minConf and at most
MAX_CONF; deposits outside that window never cause a transition. -/
theorem c5_promotion_requires_confirmation_window
    (minConf chunkSize : Int) (draw : Int → ℚ) (hashBytes : List Nat)
    (height : Int) (chain : List ListUnspentResult) (p : PoolState)
    (c : ChunkMessage)
    (hc : c ∈ (findTransactions minConf chunkSize draw
        hashBytes height chain p).scanned) :
    ∃ r ∈ chain, r.address = c.mixAddr ∧
      minConf ≤ r.confirmations ∧ r.confirmations ≤ MAX_CONF := by
  rw [findTransactions, harvestBlock_scanned, List.mem_filter] at hc
  have hcont : c.mixAddr ∈
      receivedAddresses minConf chunkSize chain (prune height p) := by
    have := hc.2
    simpa [List.contains, List.elem_eq_mem] using this
  obtain ⟨r, hr, ha, h1, h2, -⟩ :=
    mem_receivedAddresses minConf chunkSize chain (prune height p)
      c.mixAddr hcont
  exact ⟨r, hr, ha, h1, h2⟩

/-- Witness for C5: with minConf = 6 and a single listed deposit at "E"
with 6 confirmations and sufficient amount, the chunk at "E" is scanned,
and the theorem produces the deposit within the confirmation window. -/
theorem c5_promotion_requires_confirmation_window_witness :
    ∃ r ∈ [exResult], r.address = exChunkExpired.mixAddr ∧
      6 ≤ r.confirmations ∧ r.confirmations ≤ MAX_CONF :=
  c5_promotion_requires_confirmation_window 6 100 drawHalf [] 10
    [exResult] examplePool exChunkExpired (by decide)

/-- C6: within a single `findTransactions` pass, pruning completes before
the utxo query and the scan: a chunk removed by `prune` in that pass (in
the pool before pruning, absent after) is never among the chunks scanned
and routed in the same pass. -/
theorem c6_pruned_not_promoted_same_pass
    (minConf chunkSize : Int) (draw : Int → ℚ) (hashBytes : List Nat)
    (height : Int) (chain : List ListUnspentResult) (p : PoolState)
    (c : ChunkMessage)
    (hpruned : c ∈ p.receivable ∧ c ∉ (prune height p).receivable) :
    c ∉ (findTransactions minConf chunkSize draw
        hashBytes height chain p).scanned := by
  intro hscan
  rw [findTransactions, harvestBlock_scanned, List.mem_filter] at hscan
  exact hpruned.2 hscan.1

/-- Witness for C6: at height 10 the chunk with sendBy 20 is removed by
`prune` (the predicate `sendBy <= height` is false for it), and it is not
scanned in the same pass even though a valid deposit at its address "F"
is listed. -/
theorem c6_pruned_not_promoted_same_pass_witness :
    exChunkFresh ∈ examplePool.receivable ∧
    exChunkFresh ∉ (prune 10 examplePool).receivable ∧
    exChunkFresh ∉ (findTransactions 6 100 drawHalf [] 10
      [{ address := "F", amount := 100, txId := "tx", vout := 0,
         confirmations := 6 }] examplePool).scanned :=
  ⟨by decide, by decide,
    c6_pruned_not_promoted_same_pass 6 100 drawHalf [] 10
      [{ address := "F", amount := 100, txId := "tx", vout := 0,
         confirmations := 6 }] examplePool exChunkFresh
      ⟨by decide, by decide⟩⟩

/-- C7: a request that fails validation is rejected synchronously with
the validation error (when not shutting down), before address generation
or signing, and the pool is left untouched — for any shutdown flag, no
`Put` happens and neither `getNewAddress` nor `signChunkMessage` runs. -/
theorem c7_validation_error_no_mutation (stopping : Bool)
    (validate : ChunkMessage → Option String)
    (getNewAddress : Except Unit String) (p : PoolState)
    (msg : ChunkMessage) (e : String) (hv : validate msg = some e) :
    (handleChunkRequest stopping validate getNewAddress p msg).pool = p ∧
    (handleChunkRequest stopping validate getNewAddress p
        msg).addrGenAttempted = false ∧
    (handleChunkRequest stopping validate getNewAddress p msg).signed
        = false ∧
    (stopping = false →
      (handleChunkRequest stopping validate getNewAddress p msg).result =
        .validationError e) := by
  cases stopping <;> simp [handleChunkRequest, hv]

/-- Witness for C7: the always-failing validator on a live server yields
the validation error, an unchanged pool, and no address generation or
signing. -/
theorem c7_validation_error_no_mutation_witness :
    (handleChunkRequest false exValidateFail (.ok "A") examplePool
        exChunkFresh).pool = examplePool ∧
    (handleChunkRequest false exValidateFail (.ok "A") examplePool
        exChunkFresh).addrGenAttempted = false ∧
    (handleChunkRequest false exValidateFail (.ok "A") examplePool
        exChunkFresh).signed = false ∧
    (handleChunkRequest false exValidateFail (.ok "A") examplePool
        exChunkFresh).result = .validationError "invalid" := by
  have h := c7_validation_error_no_mutation false exValidateFail
    (.ok "A") examplePool exChunkFresh "invalid" rfl
  exact ⟨h.1, h.2.1, h.2.2.1, h.2.2.2 rfl⟩

/-- C8: the claim fails on the code. An escrow-address generation failure
during a valid request and a failed `ListUnspent` RPC call during a block
pass both hit `log.Panicf`, which panics — with no `recover` in the
program this terminates the process rather than aborting one request or
retrying the query. -/
theorem c8_failure_paths_panic :
    (handleChunkRequest false (fun _ => none) (.error ()) examplePool
        exChunkFresh).result = .panicked ∧
    findTransactionsRun 6 100 drawHalf [] 10 (.error ()) examplePool =
      .panicked (prune 10 examplePool) :=
  ⟨rfl, rfl⟩

/-- C9: with `randInt` modelled from the spec as a draw in [0, n], the
delay generated for a chunk lies in [0, returnBy − currentHeight − 1]
whenever that range is non-empty. -/
theorem c9_delay_range (randInt : Int → Int) (h : RandIntOk randInt)
    (currHeight returnBy : Int) (hr : 0 ≤ returnBy - 1 - currHeight) :
    0 ≤ generateDelay randInt currHeight returnBy ∧
    generateDelay randInt currHeight returnBy ≤
      returnBy - currHeight - 1 := by
  obtain ⟨h0, h1⟩ := h _ hr
  unfold generateDelay
  omega

/-- Witness for C9: at current height 95 and returnBy 110, a conforming
draw yields a delay within [0, 14]. -/
theorem c9_delay_range_witness :
    0 ≤ generateDelay exRandInt 95 110 ∧
    generateDelay exRandInt 95 110 ≤ 110 - 95 - 1 :=
  c9_delay_range exRandInt
    (fun n hn => ⟨le_refl 0, hn⟩) 95 110 (by norm_num)

/-- C10: a chunk surviving the prune step whose listed deposits at its
escrow address all fall below the configured chunk size is silently
skipped by the pass: it is not scanned (so it receives no fee decision
and is not routed) and it is still in the Receivable pool afterwards. -/
theorem c10_small_amount_skipped
    (minConf chunkSize : Int) (draw : Int → ℚ) (hashBytes : List Nat)
    (height : Int) (chain : List ListUnspentResult) (p : PoolState)
    (c : ChunkMessage)
    (hmem : c ∈ (prune height p).receivable)
    (hsmall : ∀ r ∈ chain, r.address = c.mixAddr → r.amount < chunkSize) :
    c ∉ (findTransactions minConf chunkSize draw
        hashBytes height chain p).scanned ∧
    c ∈ (findTransactions minConf chunkSize draw
        hashBytes height chain p).pool.receivable := by
  have hnot : c.mixAddr ∉
      receivedAddresses minConf chunkSize chain (prune height p) := by
    intro hmemA
    obtain ⟨r, hr, ha, -, -, hamt⟩ :=
      mem_receivedAddresses minConf chunkSize chain (prune height p)
        c.mixAddr hmemA
    have := hsmall r hr ha
    omega
  constructor
  · intro hscan
    rw [findTransactions, harvestBlock_scanned, List.mem_filter] at hscan
    have := hscan.2
    simp [List.contains, List.elem_eq_mem] at this
    exact hnot this
  · rw [findTransactions, harvestBlock_receivable, List.mem_filter]
    refine ⟨hmem, ?_⟩
    simp [List.contains, List.elem_eq_mem]
    exact hnot

/-- Witness for C10: the chunk at "E" survives the prune step at height
10, its only listed deposit has amount 40 < 100, and after the pass the
chunk is unscanned and still in Receivable. -/
theorem c10_small_amount_skipped_witness :
    exChunkExpired ∉ (findTransactions 6 100 drawHalf [] 10
      [exResultSmall] examplePool).scanned ∧
    exChunkExpired ∈ (findTransactions 6 100 drawHalf [] 10
      [exResultSmall] examplePool).pool.receivable :=
  c10_small_amount_skipped 6 100 drawHalf [] 10 [exResultSmall]
    examplePool exChunkExpired (by decide) (by decide)

end Mixcoin
